import Mathlib

/-!
Shallow embedding of src/pythonde/devolution.py (class DEvolution), a
differential-evolution optimizer in the rand/1/bin variant.

Modelling conventions:
* Real numbers are modelled by the rationals. numpy row vectors become
  functions of type Nat to Rat, matrices functions of two Nat arguments;
  entries outside the array extent are irrelevant and simply carried along.
* The process-wide numpy random source is modelled as an explicit stream
  of draws (each draw standing for one call of numpy.random.random, a value
  in the half-open unit interval) together with a cursor into the stream.
  The rejection-resampling loops of _iterate consume a variable number of
  draws and are given explicit fuel; exhausted fuel yields none, standing
  for non-termination of the Python while loop.
* The generator protocol of _iterate is modelled by explicit state passing:
  the caller's successive send values become a list of optional rationals,
  where none is the abandonment signal (Python None).
-/

namespace PythonDE

attribute [local semireducible] Rat.add Rat.sub Rat.mul Rat.inv

/-- A stream of successive draws of the process-wide random source; each
value stands for one result of numpy.random.random(). -/
abbrev RandStream := ℕ → ℚ

/-- The constructor arguments of DEvolution (devolution.py line 16):
objective function is carried separately where needed. -/
structure DEConfig where
  bounds : List (ℚ × ℚ)
  nPopulation : ℕ
  F : ℚ := 1/2
  CR : ℚ := 1/2
  seed : Option ℕ := none
  minimize : Bool := true

/-- The mutable attributes of a DEvolution object. nParameters and
nDimension both equal bounds.length in the source and are not duplicated
here. -/
structure DEState where
  nPopulation : ℕ
  bounds : List (ℚ × ℚ)
  F : ℚ
  CR : ℚ
  m : ℚ
  minIndex : Option ℕ
  population : ℕ → ℕ → ℚ
  fitness : ℕ → ℚ
  trialPopulation : ℕ → ℕ → ℚ
  trialFitness : ℕ → ℚ
  iterationNum : ℕ
  extFitness : Option ℚ

/-- Lower bound of dimension k (bounds[k][0]). -/
def lowerOf (bounds : List (ℚ × ℚ)) (k : ℕ) : ℚ := (bounds.getD k (0, 0)).1

/-- Upper bound of dimension k (bounds[k][1]). -/
def upperOf (bounds : List (ℚ × ℚ)) (k : ℕ) : ℚ := (bounds.getD k (0, 0)).2

/-- Seeding logic of __init__ (devolution.py lines 33-34): the Python test
is the truthiness test `if seed:`, so both None and 0 leave the ambient
process-wide random stream in place; any other seed replaces it by the
stream determined by that seed (np.random.seed). The pseudo-random
generator itself is abstracted as the function prng from seeds to
streams. -/
def effectiveStream (prng : ℕ → RandStream) (ambient : RandStream) (seed : Option ℕ) :
    RandStream :=
  match seed with
  | none => ambient
  | some sd => if sd = 0 then ambient else prng sd

/-- DEvolution.__init__ (devolution.py lines 16-44), after the random
stream in force has been determined.  With an empty bounds list the numpy
expression self.bounds[:, 0] raises an IndexError (too many indices for a
1-dimensional empty array); otherwise every configuration is accepted
without any validation.  The initial population is
lowerBound + random([nPopulation, nParameters]) * boundRange, the random
matrix consuming draws in row-major order; fitness is np.zeros, the trial
arrays are zeros_like, the iteration counter is 0 and _minIndex and
_extFitness are None. -/
def DEvolution.init (cfg : DEConfig) (s : RandStream) : Except String DEState :=
  if cfg.bounds = [] then Except.error "IndexError"
  else Except.ok
    { nPopulation := cfg.nPopulation
      bounds := cfg.bounds
      F := cfg.F
      CR := cfg.CR
      m := if cfg.minimize then 1 else -1
      minIndex := none
      population := fun i k =>
        lowerOf cfg.bounds k +
          s (i * cfg.bounds.length + k) * (upperOf cfg.bounds k - lowerOf cfg.bounds k)
      fitness := fun _ => 0
      trialPopulation := fun _ _ => 0
      trialFitness := fun _ => 0
      iterationNum := 0
      extFitness := none }

/-- Construction including the seeding step: the stream used by the object
is the effective stream determined by cfg.seed. -/
def DEvolution.new (cfg : DEConfig) (prng : ℕ → RandStream) (ambient : RandStream) :
    Except String DEState :=
  DEvolution.init cfg (effectiveStream prng ambient cfg.seed)

/-- int(random() * n) for a draw r: truncation of r * n (equal to the floor
for the non-negative draws produced by random()). -/
def toIdx (n : ℕ) (r : ℚ) : ℕ := (⌊r * (n : ℚ)⌋).toNat

/-- One rejection-resampling loop of _iterate (e.g. devolution.py lines
106-111): while the current candidate lies in the banned list, replace it
by int(random() * n) for the next draw.  Returns the accepted index and
the new cursor, or none when the fuel runs out. -/
def resample (s : RandStream) (n : ℕ) (banned : List ℕ) :
    ℕ → ℕ → ℕ → Option (ℕ × ℕ)
  | 0, pos, cur => if cur ∈ banned then none else some (cur, pos)
  | fuel + 1, pos, cur =>
    if cur ∈ banned then resample s n banned fuel (pos + 1) (toIdx n (s pos))
    else some (cur, pos)

/-- The index-sampling preamble for slot j (devolution.py lines 105-111):
rnds = (random(3) * nPopulation).astype(int) consumes three draws, then the
three rejection loops run in order, banning j, then j and r0, then j, r0
and r1.  Returns (r0, r1, r2) and the new cursor. -/
def sampleIndices (s : RandStream) (n fuel j pos : ℕ) : Option (ℕ × ℕ × ℕ × ℕ) := do
  let a0 := toIdx n (s pos)
  let a1 := toIdx n (s (pos + 1))
  let a2 := toIdx n (s (pos + 2))
  let (r0, p0) ← resample s n [j] fuel (pos + 3) a0
  let (r1, p1) ← resample s n [j, r0] fuel p0 a1
  let (r2, p2) ← resample s n [j, r0, r1] fuel p1 a2
  pure (r0, r1, r2, p2)

/-- The mutant vector v = population[r0] + F * (population[r1] -
population[r2]) (devolution.py line 113). -/
def mutantOf (pop : ℕ → ℕ → ℚ) (F : ℚ) (r0 r1 r2 : ℕ) : ℕ → ℚ :=
  fun k => pop r0 k + F * (pop r1 k - pop r2 k)

/-- Binomial crossover (devolution.py lines 115-120): randb = random(d)
occupies draws pos..pos+d-1; dimension k takes the mutant coordinate when
randb[k] is at most CR, else the target coordinate. -/
def binCross (s : RandStream) (pos : ℕ) (CR : ℚ) (v target : ℕ → ℚ) : ℕ → ℚ :=
  fun k => if s (pos + k) ≤ CR then v k else target k

/-- The forced dimension (devolution.py lines 122-123): u[rnbr] = v[rnbr]
regardless of the crossover draw at rnbr. -/
def forceDim (u v : ℕ → ℚ) (rnbr : ℕ) : ℕ → ℚ :=
  fun k => if k = rnbr then v k else u k

/-- The per-coordinate hard clamp of the repair step (devolution.py lines
126-130): below the lower bound snap to it, above the upper bound snap to
it, otherwise keep the value. -/
def clamp1 (b : ℚ × ℚ) (x : ℚ) : ℚ :=
  if x < b.1 then b.1 else if b.2 < x then b.2 else x

/-- Bounds repair of the whole trial vector (devolution.py lines 125-130). -/
def repair (bounds : List (ℚ × ℚ)) (u : ℕ → ℚ) : ℕ → ℚ :=
  fun k => clamp1 (bounds.getD k (0, 0)) (u k)

/-- Production of the trial vector for slot j (devolution.py lines
105-132): sample indices, form the mutant, cross over (d draws), force one
uniformly drawn dimension (one draw), repair.  Returns the repaired row
and the new cursor. -/
def produceTrialRow (s : RandStream) (fuel n : ℕ) (bounds : List (ℚ × ℚ)) (F CR : ℚ)
    (pop : ℕ → ℕ → ℚ) (j pos : ℕ) : Option ((ℕ → ℚ) × ℕ) := do
  let (r0, r1, r2, p) ← sampleIndices s n fuel j pos
  let v := mutantOf pop F r0 r1 r2
  let u := binCross s p CR v (pop j)
  let rnbr := toIdx bounds.length (s (p + bounds.length))
  let u2 := forceDim u v rnbr
  pure (repair bounds u2, p + bounds.length + 1)

/-- The slot loop `for j in range(nPopulation)` filling the trial
population (devolution.py lines 103-132): left slots remain, the next one
is j. -/
def produceTrials (s : RandStream) (fuel n : ℕ) (bounds : List (ℚ × ℚ)) (F CR : ℚ)
    (pop : ℕ → ℕ → ℚ) :
    ℕ → ℕ → (ℕ → ℕ → ℚ) → ℕ → Option ((ℕ → ℕ → ℚ) × ℕ)
  | 0, _, tp, pos => some (tp, pos)
  | left + 1, j, tp, pos => do
    let (row, npos) ← produceTrialRow s fuel n bounds F CR pop j pos
    produceTrials s fuel n bounds F CR pop left (j + 1)
      (fun a => if a = j then row else tp a) npos

/-- The boolean-mask selection applied to the population (devolution.py
lines 97-98 and 177-178): slot i takes the trial row exactly when the
trial fitness is strictly below the incumbent fitness. -/
def selectPop (n : ℕ) (pop tp : ℕ → ℕ → ℚ) (fit tf : ℕ → ℚ) : ℕ → ℕ → ℚ :=
  fun i => if i < n ∧ tf i < fit i then tp i else pop i

/-- The boolean-mask selection applied to the fitness vector (devolution.py
lines 97, 99 and 177, 179). -/
def selectFit (n : ℕ) (fit tf : ℕ → ℚ) : ℕ → ℚ :=
  fun i => if i < n ∧ tf i < fit i then tf i else fit i

/-- np.argmin over the first n entries of f: the first index attaining the
minimum (devolution.py lines 101 and 180). -/
def npArgmin (f : ℕ → ℚ) (n : ℕ) : ℕ :=
  (List.range n).foldl (fun best i => if f i < f best then i else best) 0

/-- Evaluation of the first n rows through m * func (devolution.py lines
142-143 and 173-174); entries beyond n keep their old value. -/
def evalAll (m : ℚ) (func : (ℕ → ℚ) → ℚ) (n : ℕ) (rows : ℕ → ℕ → ℚ) (old : ℕ → ℚ) :
    ℕ → ℚ :=
  fun i => if i < n then m * func (rows i) else old i

/-- The population fitness in force at the start of the normal-mode branch
(devolution.py lines 141-143): evaluated through func on the first lap
(iterationNum = 1), untouched afterwards. -/
def fit0Of (func : (ℕ → ℚ) → ℚ) (st : DEState) : ℕ → ℚ :=
  if st.iterationNum = 1 then
    evalAll st.m func st.nPopulation st.population st.fitness
  else st.fitness

/-- The normal-mode branch body of _iterate (devolution.py lines 141-180,
everything in the elif after the maxGen decrement): on the first lap
(iterationNum = 1) the population fitness is evaluated through func; then
the trial population is produced, evaluated, and the mask selection and
argmin run. -/
def batchBranch (func : (ℕ → ℚ) → ℚ) (s : RandStream) (fuel : ℕ)
    (st : DEState) (pos : ℕ) : Option (DEState × ℕ) := do
  let fit0 := fit0Of func st
  let (tp, npos) ← produceTrials s fuel st.nPopulation st.bounds st.F st.CR
      st.population st.nPopulation 0 st.trialPopulation pos
  let tf := evalAll st.m func st.nPopulation tp st.trialFitness
  pure ({ st with
      population := selectPop st.nPopulation st.population tp fit0 tf
      fitness := selectFit st.nPopulation fit0 tf
      trialPopulation := tp
      trialFitness := tf
      minIndex := some (npArgmin (selectFit st.nPopulation fit0 tf) st.nPopulation) },
    npos)

/-- One full pass of the while loop of _iterate as driven by Optimize
(normal mode): the yield of one row is answered by next(), i.e. None, so
the evaluation sweep breaks at its first slot changing nothing, the
iteration counter advances, _extFitness becomes None, and the normal-mode
branch runs. -/
def normalPass (func : (ℕ → ℚ) → ℚ) (s : RandStream) (fuel : ℕ)
    (st : DEState) (pos : ℕ) : Option (DEState × ℕ) :=
  batchBranch func s fuel
    { st with iterationNum := st.iterationNum + 1, extFitness := none } pos

/-- g passes of the normal-mode while loop (the maxGen budget is consumed
one unit per pass, devolution.py line 139). -/
def batchRun (func : (ℕ → ℚ) → ℚ) (s : RandStream) (fuel : ℕ) :
    ℕ → DEState → ℕ → Option (DEState × ℕ)
  | 0, st, pos => some (st, pos)
  | g + 1, st, pos => do
    let (st1, npos) ← normalPass func s fuel st pos
    batchRun func s fuel g st1 npos

/-- DEvolution.Optimize (devolution.py lines 66-69): drive the generator
for maxGen generations, then return (population[minIndex], fitness[minIndex]).
The cursor starts right after the draws consumed by the initial population
matrix. -/
def Optimize (cfg : DEConfig) (func : (ℕ → ℚ) → ℚ) (s : RandStream)
    (fuel g : ℕ) : Option ((ℕ → ℚ) × ℚ) := do
  let st0 ← (DEvolution.init cfg s).toOption
  let (st, _) ← batchRun func s fuel g st0 (cfg.nPopulation * cfg.bounds.length)
  let mi ← st.minIndex
  pure (st.population mi, st.fitness mi)

/-- The MinimumValue property (devolution.py lines 61-64): the fitness
vector entry at _minIndex, with no sign adjustment. -/
def MinimumValue (st : DEState) : Option ℚ := st.minIndex.map st.fitness

/-- The MinimumPoint property (devolution.py lines 56-59). -/
def MinimumPoint (st : DEState) : Option (ℕ → ℚ) := st.minIndex.map st.population

/-!
The coroutine (interactive) face of _iterate.  The caller's successive
send values are a list of optional rationals; none is the abandonment
signal (sending Python None, e.g. through next()).  One element of the
list answers one yield.
-/

/-- One evaluation sweep of _iterate (devolution.py lines 80-85 for the
population sweep, 87-92 for the trial sweep; the two loops are textually
identical except for the array written).  left slots remain and the next
slot is i; f is the vector being filled and ext the current _extFitness.
Returns the updated vector, the final _extFitness, the unconsumed
responses, and whether the pass may continue (false means the responses
ran out while the generator was suspended at a yield inside the sweep). -/
def fitSweep (m : ℚ) :
    ℕ → ℕ → (ℕ → ℚ) → Option ℚ → List (Option ℚ) →
      ((ℕ → ℚ) × Option ℚ × List (Option ℚ) × Bool)
  | 0, _, f, ext, resp => (f, ext, resp, true)
  | _ + 1, _, f, ext, [] => (f, ext, [], false)
  | _ + 1, _, f, _, none :: rs => (f, none, rs, true)
  | left + 1, i, f, _, some x :: rs =>
    fitSweep m left (i + 1) (fun k => if k = i then m * x else f k) (some x) rs

/-- The coroutine-mode branch of _iterate (devolution.py lines 95-132,
the body of `if self._extFitness is not None`): from the second lap on,
mask selection and argmin run first; then the trial population for the
next sweep is produced. -/
def coroutineBranch (s : RandStream) (fuel : ℕ) (st : DEState) (pos : ℕ) :
    Option (DEState × ℕ) := do
  let st1 :=
    if 1 < st.iterationNum then
      { st with
        population := selectPop st.nPopulation st.population st.trialPopulation
          st.fitness st.trialFitness
        fitness := selectFit st.nPopulation st.fitness st.trialFitness
        minIndex := some (npArgmin
          (selectFit st.nPopulation st.fitness st.trialFitness) st.nPopulation) }
    else st
  let (tp, npos) ← produceTrials s fuel st1.nPopulation st1.bounds st1.F st1.CR
      st1.population st1.nPopulation 0 st1.trialPopulation pos
  pure ({ st1 with trialPopulation := tp }, npos)

/-- The result of one pass of the while loop of _iterate in its coroutine
reading: the state afterwards, the remaining generation budget, the
unconsumed responses, and whether the pass ran to the bottom of the loop
body (false: the generator is suspended at a yield inside an evaluation
sweep, waiting for the caller). -/
structure PassResult where
  state : DEState
  maxGen : Option ℤ
  resp : List (Option ℚ)
  completed : Bool

/-- The tail of one while-loop pass after the evaluation sweep
(devolution.py lines 94-180): with _extFitness set, the coroutine branch;
otherwise with a generation budget, the normal-mode branch consuming one
unit of budget; otherwise nothing. -/
def passTail (func : (ℕ → ℚ) → ℚ) (s : RandStream) (fuel : ℕ) (st : DEState)
    (maxGen : Option ℤ) (rs : List (Option ℚ)) (pos : ℕ) :
    Option (PassResult × ℕ) :=
  match st.extFitness with
  | some _ => do
    let (st1, npos) ← coroutineBranch s fuel st pos
    pure ({ state := st1, maxGen := maxGen, resp := rs, completed := true }, npos)
  | none =>
    match maxGen with
    | some g => do
      let (st1, npos) ← batchBranch func s fuel st pos
      pure ({ state := st1, maxGen := some (g - 1), resp := rs, completed := true },
        npos)
    | none => some ({ state := st, maxGen := none, resp := rs, completed := true }, pos)

/-- One pass of the while loop of _iterate (devolution.py lines 77-180):
the evaluation sweep over the population (first lap) or the trial
population (later laps), the advance of the iteration counter, then the
pass tail.  When the responses run out mid-sweep the generator stays
suspended and the partially updated state is returned as is. -/
def coPass (func : (ℕ → ℚ) → ℚ) (s : RandStream) (fuel : ℕ) (st : DEState)
    (maxGen : Option ℤ) (resp : List (Option ℚ)) (pos : ℕ) :
    Option (PassResult × ℕ) :=
  if st.iterationNum = 0 then
    let r := fitSweep st.m st.nPopulation 0 st.fitness st.extFitness resp
    let stS := { st with fitness := r.1, extFitness := r.2.1 }
    if r.2.2.2 then
      passTail func s fuel { stS with iterationNum := stS.iterationNum + 1 }
        maxGen r.2.2.1 pos
    else some ({ state := stS, maxGen := maxGen, resp := r.2.2.1, completed := false },
      pos)
  else
    let r := fitSweep st.m st.nPopulation 0 st.trialFitness st.extFitness resp
    let stS := { st with trialFitness := r.1, extFitness := r.2.1 }
    if r.2.2.2 then
      passTail func s fuel { stS with iterationNum := stS.iterationNum + 1 }
        maxGen r.2.2.1 pos
    else some ({ state := stS, maxGen := maxGen, resp := r.2.2.1, completed := false },
      pos)

/-- The while condition of _iterate (devolution.py line 77): an int budget
must be positive; the None budget always continues. -/
def whileCond : Option ℤ → Bool
  | some g => decide (0 < g)
  | none => true

/-- Driving the generator until it leaves the while loop (StopIteration),
or suspends awaiting a response the given list does not contain, or the
fuel runs out.  The final Bool is true when the generator left the loop
and false when it is suspended at a yield. -/
def coRun (func : (ℕ → ℚ) → ℚ) (s : RandStream) (fuel : ℕ) :
    ℕ → DEState → Option ℤ → List (Option ℚ) → ℕ →
      Option (DEState × Option ℤ × List (Option ℚ) × Bool)
  | 0, _, _, _, _ => none
  | p + 1, st, mg, resp, pos =>
    if whileCond mg then
      match coPass func s fuel st mg resp pos with
      | none => none
      | some (r, npos) =>
        if r.completed then coRun func s fuel p r.state r.maxGen r.resp npos
        else some (r.state, r.maxGen, r.resp, false)
    else some (st, mg, resp, true)

/-!
Derived notions used in the statements below.
-/

/-- The population rows lie inside the configured box. -/
def popInBounds (st : DEState) : Prop :=
  ∀ i k, i < st.nPopulation → k < st.bounds.length →
    lowerOf st.bounds k ≤ st.population i k ∧ st.population i k ≤ upperOf st.bounds k

/-- The trial population rows lie inside the configured box. -/
def trialInBounds (st : DEState) : Prop :=
  ∀ i k, i < st.nPopulation → k < st.bounds.length →
    lowerOf st.bounds k ≤ st.trialPopulation i k ∧
      st.trialPopulation i k ≤ upperOf st.bounds k

/-- Every dimension has its lower bound at most its upper bound. -/
def validBounds (bounds : List (ℚ × ℚ)) : Prop := ∀ b ∈ bounds, b.1 ≤ b.2

/-- Every draw of the stream lies in the half-open unit interval, as the
draws of numpy.random.random do. -/
def unitStream (s : RandStream) : Prop := ∀ i, 0 ≤ s i ∧ s i < 1

/-- The value of f at its np.argmin over the first n entries: the minimum
of the vector when n is at least 1. -/
def npMin (f : ℕ → ℚ) (n : ℕ) : ℚ := f (npArgmin f n)

/-- The state right after an evaluation sweep was abandoned: the partially
filled vector — the fitness vector on the first lap, the scratch trial
fitness vector on every later lap — together with _extFitness = None and
the advanced iteration counter. -/
def abandonedState (st : DEState) (resp : List (Option ℚ)) : DEState :=
  if st.iterationNum = 0 then
    { st with
      fitness := (fitSweep st.m st.nPopulation 0 st.fitness st.extFitness resp).1
      extFitness := none
      iterationNum := st.iterationNum + 1 }
  else
    { st with
      trialFitness :=
        (fitSweep st.m st.nPopulation 0 st.trialFitness st.extFitness resp).1
      extFitness := none
      iterationNum := st.iterationNum + 1 }

/-!
Concrete fixtures for witnesses and counterexamples.
-/

/-- A concrete draw stream with varied values in the unit interval. -/
def exStream : RandStream := fun i => ((i % 8 : ℕ) : ℚ) / 8

/-- A concrete objective: the first coordinate. -/
def exFunc : (ℕ → ℚ) → ℚ := fun x => x 0

/-- A concrete minimizing configuration: one dimension, four individuals. -/
def exCfg : DEConfig := { bounds := [(0, 1)], nPopulation := 4 }

/-- The same configuration maximizing. -/
def exCfgMax : DEConfig := { bounds := [(0, 1)], nPopulation := 4, minimize := false }

/-- The spec scenario configuration: population size 3, bounds of length 2. -/
def cfgSmallPop : DEConfig := { bounds := [(0, 1), (0, 1)], nPopulation := 3 }

/-- A configuration with a degenerate (zero-width) but well-ordered box. -/
def cfgDegenerate : DEConfig := { bounds := [(1, 1)], nPopulation := 4 }

/-- A configuration supplying the seed 0. -/
def cfgSeedZero : DEConfig := { bounds := [(0, 1)], nPopulation := 4, seed := some 0 }

/-- A configuration supplying the seed 7. -/
def cfgSeeded : DEConfig := { bounds := [(0, 1)], nPopulation := 4, seed := some 7 }

/-- An inert state used only as the default of Option.getD below. -/
def zeroState : DEState :=
  { nPopulation := 0, bounds := [], F := 0, CR := 0, m := 1, minIndex := none
    population := fun _ _ => 0, fitness := fun _ => 0
    trialPopulation := fun _ _ => 0, trialFitness := fun _ => 0
    iterationNum := 0, extFitness := none }

/-- The concrete state constructed by exCfg over exStream. -/
def exSt0 : DEState := (DEvolution.init exCfg exStream).toOption.getD zeroState

/-- The same concrete state one lap further, as a trial-sweep shape. -/
def exSt1 : DEState := { exSt0 with iterationNum := 1 }

/-- A configuration whose box [1, 2] excludes 0, the value the scratch
trial population holds before any trial production. -/
def cfgBox12 : DEConfig := { bounds := [(1, 2)], nPopulation := 4 }

/-!
Claim C1 — construction validation.
-/

/-- C1 counterexample: constructing with population size 3 and bounds of
length 2 succeeds, directly contradicting the claim that construction
fails with InvalidConfiguration whenever the population size is below 4. -/
theorem construction_small_population_succeeds :
    (DEvolution.init cfgSmallPop (fun _ => 0)).toOption.isSome = true := by
  decide

/-- C1 (amended): __init__ performs no configuration validation at all:
construction succeeds exactly when the bounds list is nonempty, whatever
the population size and however the bounds are ordered; with empty bounds
it fails, but with numpy's IndexError from indexing the empty bounds
array, not with an InvalidConfiguration condition. -/
theorem construction_no_validation (cfg : DEConfig) (s : RandStream) :
    (DEvolution.init cfg s).toOption.isSome = !cfg.bounds.isEmpty ∧
    DEvolution.init { cfg with bounds := [] } s = Except.error "IndexError" := by
  constructor
  · cases hb : cfg.bounds with
    | nil => simp [DEvolution.init, hb, Except.toOption]
    | cons x xs => simp [DEvolution.init, hb, Except.toOption]
  · simp [DEvolution.init]

/-!
Claim C9 — seeded determinism.
-/

/-- C9 counterexample: with the supplied seed 0 the truthiness test
`if seed:` skips np.random.seed, so the run depends on the ambient state
of the process-wide random source; two runs of the identical configuration
at different ambient states produce different initial populations. -/
theorem seed_zero_ignored :
    (DEvolution.new cfgSeedZero (fun _ _ => 0) (fun _ => 0)).toOption.map
        (fun st => st.population 0 0) = some 0 ∧
    (DEvolution.new cfgSeedZero (fun _ _ => 0) (fun _ => 1 / 2)).toOption.map
        (fun st => st.population 0 0) = some (1 / 2) ∧
    (0 : ℚ) ≠ 1 / 2 := by
  refine ⟨by decide, by decide, by decide⟩

/-- C9 (amended): for every supplied nonzero seed, the stream in force is
the one determined by the seed, independently of the ambient state of the
random source; hence two batch runs with identical configuration and
objective have identical constructed states, identical generation
sequences and identical final results. -/
theorem seeded_determinism (cfg : DEConfig) (prng : ℕ → RandStream)
    (a1 a2 : RandStream) (func : (ℕ → ℚ) → ℚ) (fuel : ℕ) (sd : ℕ)
    (hs : cfg.seed = some sd) (h0 : sd ≠ 0) :
    effectiveStream prng a1 cfg.seed = effectiveStream prng a2 cfg.seed ∧
    DEvolution.new cfg prng a1 = DEvolution.new cfg prng a2 ∧
    (∀ g, Optimize cfg func (effectiveStream prng a1 cfg.seed) fuel g =
      Optimize cfg func (effectiveStream prng a2 cfg.seed) fuel g) ∧
    ∀ g st0 pos, batchRun func (effectiveStream prng a1 cfg.seed) fuel g st0 pos =
      batchRun func (effectiveStream prng a2 cfg.seed) fuel g st0 pos := by
  have he : effectiveStream prng a1 cfg.seed = effectiveStream prng a2 cfg.seed := by
    simp [effectiveStream, hs, h0]
  exact ⟨he, by simp [DEvolution.new, he], fun g => by rw [he], fun g st0 pos => by rw [he]⟩

/-- C9 witness: the amended determinism theorem applied to the concrete
configuration seeded with 7 and two distinct ambient streams. -/
theorem seeded_determinism_witness :
    cfgSeeded.seed = some 7 ∧ (7 : ℕ) ≠ 0 ∧
    (effectiveStream (fun _ _ => 0) (fun _ => 0) cfgSeeded.seed =
      effectiveStream (fun _ _ => 0) (fun _ => 1 / 2) cfgSeeded.seed ∧
    DEvolution.new cfgSeeded (fun _ _ => 0) (fun _ => 0) =
      DEvolution.new cfgSeeded (fun _ _ => 0) (fun _ => 1 / 2) ∧
    (∀ g, Optimize cfgSeeded exFunc
        (effectiveStream (fun _ _ => 0) (fun _ => 0) cfgSeeded.seed) 20 g =
      Optimize cfgSeeded exFunc
        (effectiveStream (fun _ _ => 0) (fun _ => 1 / 2) cfgSeeded.seed) 20 g) ∧
    ∀ g st0 pos, batchRun exFunc
        (effectiveStream (fun _ _ => 0) (fun _ => 0) cfgSeeded.seed) 20 g st0 pos =
      batchRun exFunc
        (effectiveStream (fun _ _ => 0) (fun _ => 1 / 2) cfgSeeded.seed) 20 g st0 pos) :=
  ⟨rfl, by decide,
    seeded_determinism cfgSeeded (fun _ _ => 0) (fun _ => 0) (fun _ => 1 / 2)
      exFunc 20 7 rfl (by decide)⟩

/-!
Claim C8 — index distinctness and the mutant formula.
-/

/-- Whatever a rejection-resampling loop returns is outside its banned
list. -/
lemma resample_avoids (s : RandStream) (n : ℕ) (banned : List ℕ) :
    ∀ fuel pos cur r p, resample s n banned fuel pos cur = some (r, p) → r ∉ banned := by
  intro fuel
  induction fuel with
  | zero =>
    intro pos cur r p h
    by_cases hc : cur ∈ banned
    · simp [resample, hc] at h
    · simp [resample, hc] at h
      exact h.1 ▸ hc
  | succ f ih =>
    intro pos cur r p h
    by_cases hc : cur ∈ banned
    · rw [resample, if_pos hc] at h
      exact ih _ _ _ _ h
    · rw [resample, if_neg hc] at h
      simp only [Option.some.injEq, Prod.mk.injEq] at h
      exact h.1 ▸ hc

/-- C8: whenever the index-sampling preamble for slot j returns, the three
mutation indices are pairwise distinct and all distinct from j, and the
mutant vector is population[r0] + F * (population[r1] - population[r2])
element-wise. -/
theorem mutation_index_distinctness (s : RandStream) (n fuel j pos r0 r1 r2 p : ℕ)
    (hn : 4 ≤ n) (h : sampleIndices s n fuel j pos = some (r0, r1, r2, p)) :
    (r0 ≠ j ∧ r1 ≠ j ∧ r2 ≠ j ∧ r0 ≠ r1 ∧ r0 ≠ r2 ∧ r1 ≠ r2) ∧
    ∀ (pop : ℕ → ℕ → ℚ) (F : ℚ) (k : ℕ),
      mutantOf pop F r0 r1 r2 k = pop r0 k + F * (pop r1 k - pop r2 k) := by
  rw [sampleIndices] at h
  simp only [bind, Option.bind_eq_some, Option.pure_def, Option.some.injEq] at h
  obtain ⟨⟨a, pa⟩, ha, ⟨b, pb⟩, hb, ⟨c, pc⟩, hc, heq⟩ := h
  obtain ⟨h1, h2, h3, h4⟩ : a = r0 ∧ b = r1 ∧ c = r2 ∧ pc = p := by
    simpa [Prod.ext_iff] using heq
  subst h1; subst h2; subst h3; subst h4
  have m0 := resample_avoids _ _ _ _ _ _ _ _ ha
  have m1 := resample_avoids _ _ _ _ _ _ _ _ hb
  have m2 := resample_avoids _ _ _ _ _ _ _ _ hc
  simp only [List.mem_cons, List.mem_singleton, not_or, List.not_mem_nil,
    or_false] at m0 m1 m2
  exact ⟨⟨m0, m1.1, m2.1, Ne.symm m1.2, Ne.symm m2.2.1, Ne.symm m2.2.2⟩,
    fun pop F k => rfl⟩

/-- C8 witness: at the concrete stream exStream, population size 4, slot 0
and cursor 4, the sampling succeeds with the distinct indices 2, 3, 1. -/
theorem mutation_index_distinctness_witness :
    4 ≤ 4 ∧ sampleIndices exStream 4 20 0 4 = some (2, 3, 1, 11) ∧
    ((2 ≠ 0 ∧ 3 ≠ 0 ∧ 1 ≠ 0 ∧ 2 ≠ 3 ∧ 2 ≠ 1 ∧ 3 ≠ 1) ∧
      ∀ (pop : ℕ → ℕ → ℚ) (F : ℚ) (k : ℕ),
        mutantOf pop F 2 3 1 k = pop 2 k + F * (pop 3 k - pop 1 k)) :=
  ⟨by decide, by decide,
    mutation_index_distinctness exStream 4 20 0 4 2 3 1 11 (by decide) (by decide)⟩

/-!
Claim C7 — the forced-crossover dimension and the difference guarantee.
-/

/-- C7 counterexample: with the degenerate but well-ordered box [(1,1)]
the initial population consists of identical all-ones individuals, and the
trial vector produced for slot 0 then equals its target individual in
every dimension; the claimed guarantee that the repaired trial differs
from the target in at least one dimension is false. -/
theorem trial_equals_target_counterexample :
    ((DEvolution.init cfgDegenerate exStream).toOption.map (fun st =>
      decide (st.population 0 0 = 1 ∧ st.population 1 0 = 1 ∧
        st.population 2 0 = 1 ∧ st.population 3 0 = 1)) = some true) ∧
    ((produceTrialRow exStream 20 4 [(1, 1)] (1 / 2) (1 / 2) (fun _ _ => 1) 0 0).map
      (fun r => decide (r.1 0 = (1 : ℚ))) = some true) :=
  ⟨by decide, by decide⟩

/-- C7 (amended): during crossover one dimension index rnbr is forced to
take the mutant coordinate regardless of the CR draws, and after bounds
repair that coordinate holds the clamped mutant coordinate; hence the
repaired trial differs from its target at rnbr whenever the clamped mutant
coordinate differs from the target coordinate there — but the repaired
trial need not differ from the target in any dimension in general. -/
theorem forced_dimension (s : RandStream) (pos : ℕ) (CR : ℚ) (v target : ℕ → ℚ)
    (rnbr : ℕ) (bounds : List (ℚ × ℚ))
    (hne : clamp1 (bounds.getD rnbr (0, 0)) (v rnbr) ≠ target rnbr) :
    forceDim (binCross s pos CR v target) v rnbr rnbr = v rnbr ∧
    repair bounds (forceDim (binCross s pos CR v target) v rnbr) rnbr =
      clamp1 (bounds.getD rnbr (0, 0)) (v rnbr) ∧
    repair bounds (forceDim (binCross s pos CR v target) v rnbr) rnbr ≠ target rnbr := by
  refine ⟨by simp [forceDim], by simp [repair, forceDim], ?_⟩
  simpa [repair, forceDim] using hne

/-- C7 witness: a mutant coordinate 2 clamped into [0,1] gives 1, which
differs from the target coordinate 0, so the repaired trial differs from
the target at the forced dimension. -/
theorem forced_dimension_witness :
    clamp1 ([((0 : ℚ), (1 : ℚ))].getD 0 (0, 0)) ((2 : ℚ)) ≠ (0 : ℚ) ∧
    (forceDim (binCross (fun _ => 0) 0 (1 / 2) (fun _ => 2) (fun _ => 0)) (fun _ => 2) 0 0 =
      (2 : ℚ) ∧
    repair [((0 : ℚ), (1 : ℚ))]
        (forceDim (binCross (fun _ => 0) 0 (1 / 2) (fun _ => 2) (fun _ => 0)) (fun _ => 2) 0) 0 =
      clamp1 ([((0 : ℚ), (1 : ℚ))].getD 0 (0, 0)) (2 : ℚ) ∧
    repair [((0 : ℚ), (1 : ℚ))]
        (forceDim (binCross (fun _ => 0) 0 (1 / 2) (fun _ => 2) (fun _ => 0)) (fun _ => 2) 0) 0 ≠
      (0 : ℚ)) :=
  ⟨by decide,
    forced_dimension (fun _ => 0) 0 (1 / 2) (fun _ => 2) (fun _ => 0) 0
      [((0 : ℚ), (1 : ℚ))] (by decide)⟩

/-!
Claims C10 and C3 — the abandonment of an evaluation sweep.
-/

/-- An evaluation sweep that receives values for a proper prefix of its
slots and then the abandonment signal: _extFitness ends as None, the
remaining responses are untouched, the pass may continue, and every slot
from the abandonment point on keeps its previous value. -/
lemma fitSweep_abandon (m : ℚ) :
    ∀ (vals : List ℚ) (left i : ℕ) (f : ℕ → ℚ) (ext : Option ℚ)
      (rest : List (Option ℚ)), vals.length < left →
      (fitSweep m left i f ext (vals.map some ++ none :: rest)).2.1 = none ∧
      (fitSweep m left i f ext (vals.map some ++ none :: rest)).2.2.1 = rest ∧
      (fitSweep m left i f ext (vals.map some ++ none :: rest)).2.2.2 = true ∧
      ∀ j, i + vals.length ≤ j →
        (fitSweep m left i f ext (vals.map some ++ none :: rest)).1 j = f j := by
  intro vals
  induction vals with
  | nil =>
    intro left i f ext rest hlt
    match left, hlt with
    | l + 1, _ => simp [fitSweep]
  | cons x xs ih =>
    intro left i f ext rest hlt
    match left, hlt with
    | l + 1, hlt =>
      have hlt2 : xs.length < l := by
        have := Nat.lt_of_succ_lt_succ (by simpa using hlt)
        simpa using this
      simp only [List.map_cons, List.cons_append, fitSweep]
      obtain ⟨a, b, c, d⟩ :=
        ih l (i + 1) (fun k => if k = i then m * x else f k) (some x) rest hlt2
      refine ⟨a, b, c, ?_⟩
      intro j hj
      have hne : j ≠ i := by simp at hj; omega
      have hgoal := d j (by simp at hj ⊢; omega)
      simpa [List.append_eq, hne] using hgoal

/-- C10: at construction the fitness vector is all zeros, so when the very
first evaluation sweep is abandoned after a proper prefix of slots, every
remaining slot keeps the sign-adjusted fitness 0, and any later mask
selection at such a slot compares the trial fitness against 0 — the slot
participates exactly as if its objective value were 0. -/
theorem fitness_initially_zero (cfg : DEConfig) (s : RandStream) (st : DEState)
    (hinit : DEvolution.init cfg s = Except.ok st)
    (vals : List ℚ) (rest : List (Option ℚ)) (hlen : vals.length < st.nPopulation) :
    (∀ i, st.fitness i = 0) ∧
    (∀ j, vals.length ≤ j →
      (fitSweep st.m st.nPopulation 0 st.fitness st.extFitness
          (vals.map some ++ none :: rest)).1 j = 0) ∧
    (∀ (tf : ℕ → ℚ) (j : ℕ), vals.length ≤ j →
      selectFit st.nPopulation
          ((fitSweep st.m st.nPopulation 0 st.fitness st.extFitness
            (vals.map some ++ none :: rest)).1) tf j =
        if j < st.nPopulation ∧ tf j < 0 then tf j else 0) := by
  have hz : st.fitness = fun _ => 0 := by
    rw [DEvolution.init] at hinit
    split at hinit
    · exact absurd hinit (by simp)
    · cases hinit
      rfl
  have hk := (fitSweep_abandon st.m vals st.nPopulation 0 st.fitness st.extFitness
    rest hlen).2.2.2
  have hzero : ∀ j, vals.length ≤ j →
      (fitSweep st.m st.nPopulation 0 st.fitness st.extFitness
        (vals.map some ++ none :: rest)).1 j = 0 := by
    intro j hj
    rw [hk j (by simpa using hj), hz]
  refine ⟨fun i => by rw [hz], hzero, ?_⟩
  intro tf j hj
  simp only [selectFit]
  rw [hzero j hj]

/-- C10 witness: the concrete construction over exCfg, a sweep answering
slots 0 and 1 with the values 1 and 2 and then abandoning. -/
theorem fitness_initially_zero_witness :
    DEvolution.init exCfg exStream = Except.ok exSt0 ∧
    ([(1 : ℚ), 2].length < exSt0.nPopulation) ∧
    ((∀ i, exSt0.fitness i = 0) ∧
    (∀ j, [(1 : ℚ), 2].length ≤ j →
      (fitSweep exSt0.m exSt0.nPopulation 0 exSt0.fitness exSt0.extFitness
          ([(1 : ℚ), 2].map some ++ none :: [])).1 j = 0) ∧
    (∀ (tf : ℕ → ℚ) (j : ℕ), [(1 : ℚ), 2].length ≤ j →
      selectFit exSt0.nPopulation
          ((fitSweep exSt0.m exSt0.nPopulation 0 exSt0.fitness exSt0.extFitness
            ([(1 : ℚ), 2].map some ++ none :: [])).1) tf j =
        if j < exSt0.nPopulation ∧ tf j < 0 then tf j else 0)) :=
  ⟨rfl, by decide, fitness_initially_zero exCfg exStream exSt0 rfl [1, 2] [] (by decide)⟩

/-- C3 counterexample: interactive use with no generation budget (maxGen
None), four individuals: the caller answers slots 0 and 1 of the first
sweep and then abandons.  Slots 2 and 3 keep their previous fitness 0 as
claimed, but the optimizer does not exit the iteration loop: the while
condition still holds, the next pass begins a trial-fitness sweep and the
generator suspends at its first yield (final flag false, iteration counter
1), contradicting the claim that with no finite budget it exits the
iteration loop entirely. -/
theorem abandonment_no_exit_counterexample :
    ((DEvolution.init exCfg exStream).toOption.bind (fun st =>
      coRun exFunc exStream 20 6 st none [some 1, some 2, none] 4)).map
      (fun r => (r.2.2.2, r.1.iterationNum,
        (r.1.fitness 0, r.1.fitness 1, r.1.fitness 2, r.1.fitness 3))) =
    some (false, 1, (1, 2, 0, 0)) := by
  decide

/-- C3 (amended): when the caller abandons an evaluation sweep after a
proper prefix of slots, every slot from the abandonment point on retains
its previous value — its fitness entry during the first (population)
sweep, its stale scratch trial-fitness entry during every later (trial)
sweep; afterwards the pass falls into the internal batch-style evaluation
branch, consuming one unit of budget, exactly when a finite generation
budget was supplied — with no budget (maxGen None) nothing further runs in
that pass, yet the while condition still holds, so the optimizer does not
exit the iteration loop but starts another evaluation sweep. -/
theorem abandonment_fallback (func : (ℕ → ℚ) → ℚ) (s : RandStream) (fuel : ℕ)
    (st : DEState) (pos : ℕ) (vals : List ℚ) (rest : List (Option ℚ))
    (hlen : vals.length < st.nPopulation) :
    (st.iterationNum = 0 → ∀ j, vals.length ≤ j →
      (abandonedState st (vals.map some ++ none :: rest)).fitness j = st.fitness j) ∧
    (st.iterationNum ≠ 0 → ∀ j, vals.length ≤ j →
      (abandonedState st (vals.map some ++ none :: rest)).trialFitness j =
        st.trialFitness j) ∧
    (∀ g : ℤ, coPass func s fuel st (some g) (vals.map some ++ none :: rest) pos =
      (batchBranch func s fuel (abandonedState st (vals.map some ++ none :: rest)) pos).bind
        (fun r => some ({ state := r.1, maxGen := some (g - 1), resp := rest,
                          completed := true }, r.2))) ∧
    (coPass func s fuel st none (vals.map some ++ none :: rest) pos =
      some ({ state := abandonedState st (vals.map some ++ none :: rest),
              maxGen := none, resp := rest, completed := true }, pos)) ∧
    whileCond none = true := by
  by_cases h0 : st.iterationNum = 0
  · obtain ⟨he, hr, hc, hk⟩ :=
      fitSweep_abandon st.m vals st.nPopulation 0 st.fitness st.extFitness rest hlen
    have hab : abandonedState st (vals.map some ++ none :: rest) =
        { st with
          fitness := (fitSweep st.m st.nPopulation 0 st.fitness st.extFitness
            (vals.map some ++ none :: rest)).1
          extFitness := none
          iterationNum := st.iterationNum + 1 } := by
      rw [abandonedState, if_pos h0]
    refine ⟨fun _ j hj => ?_, fun hne => absurd h0 hne, ?_, ?_, rfl⟩
    · rw [hab]
      exact hk j (by simpa using hj)
    · intro g
      rw [coPass, if_pos h0, hab]
      simp only [hc, he, hr, eq_self_iff_true, if_true]
      rfl
    · rw [coPass, if_pos h0, hab]
      simp only [hc, he, hr, eq_self_iff_true, if_true]
      rfl
  · obtain ⟨he, hr, hc, hk⟩ :=
      fitSweep_abandon st.m vals st.nPopulation 0 st.trialFitness st.extFitness rest hlen
    have hab : abandonedState st (vals.map some ++ none :: rest) =
        { st with
          trialFitness := (fitSweep st.m st.nPopulation 0 st.trialFitness st.extFitness
            (vals.map some ++ none :: rest)).1
          extFitness := none
          iterationNum := st.iterationNum + 1 } := by
      rw [abandonedState, if_neg h0]
    refine ⟨fun hz => absurd hz h0, fun _ j hj => ?_, ?_, ?_, rfl⟩
    · rw [hab]
      exact hk j (by simpa using hj)
    · intro g
      rw [coPass, if_neg h0, hab]
      simp only [hc, he, hr, eq_self_iff_true, if_true]
      rfl
    · rw [coPass, if_neg h0, hab]
      simp only [hc, he, hr, eq_self_iff_true, if_true]
      rfl

/-- C3 witness: the amended abandonment theorem applied to both sweep
shapes — the constructed state exSt0 (first lap, population sweep) and the
same state one lap further (trial sweep) — with the caller answering slots
0 and 1 with the values 1 and 2 and then abandoning. -/
theorem abandonment_fallback_witness :
    [(1 : ℚ), 2].length < exSt0.nPopulation ∧
    [(1 : ℚ), 2].length < exSt1.nPopulation ∧
    ((exSt0.iterationNum = 0 → ∀ j, [(1 : ℚ), 2].length ≤ j →
      (abandonedState exSt0 ([(1 : ℚ), 2].map some ++ none :: [])).fitness j =
        exSt0.fitness j) ∧
    (exSt0.iterationNum ≠ 0 → ∀ j, [(1 : ℚ), 2].length ≤ j →
      (abandonedState exSt0 ([(1 : ℚ), 2].map some ++ none :: [])).trialFitness j =
        exSt0.trialFitness j) ∧
    (∀ g : ℤ, coPass exFunc exStream 20 exSt0 (some g)
        ([(1 : ℚ), 2].map some ++ none :: []) 4 =
      (batchBranch exFunc exStream 20
          (abandonedState exSt0 ([(1 : ℚ), 2].map some ++ none :: [])) 4).bind
        (fun r => some ({ state := r.1, maxGen := some (g - 1), resp := [],
                          completed := true }, r.2))) ∧
    (coPass exFunc exStream 20 exSt0 none ([(1 : ℚ), 2].map some ++ none :: []) 4 =
      some ({ state := abandonedState exSt0 ([(1 : ℚ), 2].map some ++ none :: []),
              maxGen := none, resp := [], completed := true }, 4)) ∧
    whileCond none = true) ∧
    ((exSt1.iterationNum = 0 → ∀ j, [(1 : ℚ), 2].length ≤ j →
      (abandonedState exSt1 ([(1 : ℚ), 2].map some ++ none :: [])).fitness j =
        exSt1.fitness j) ∧
    (exSt1.iterationNum ≠ 0 → ∀ j, [(1 : ℚ), 2].length ≤ j →
      (abandonedState exSt1 ([(1 : ℚ), 2].map some ++ none :: [])).trialFitness j =
        exSt1.trialFitness j) ∧
    (∀ g : ℤ, coPass exFunc exStream 20 exSt1 (some g)
        ([(1 : ℚ), 2].map some ++ none :: []) 4 =
      (batchBranch exFunc exStream 20
          (abandonedState exSt1 ([(1 : ℚ), 2].map some ++ none :: [])) 4).bind
        (fun r => some ({ state := r.1, maxGen := some (g - 1), resp := [],
                          completed := true }, r.2))) ∧
    (coPass exFunc exStream 20 exSt1 none ([(1 : ℚ), 2].map some ++ none :: []) 4 =
      some ({ state := abandonedState exSt1 ([(1 : ℚ), 2].map some ++ none :: []),
              maxGen := none, resp := [], completed := true }, 4)) ∧
    whileCond none = true) :=
  ⟨by decide, by decide,
    abandonment_fallback exFunc exStream 20 exSt0 4 [1, 2] [] (by decide),
    abandonment_fallback exFunc exStream 20 exSt1 4 [1, 2] [] (by decide)⟩

/-!
Claim C6 — greedy elitist selection and the best index.
-/

/-- The argmin fold never returns an index with a larger value than the
accumulator or than any list element. -/
lemma argminFold_le (f : ℕ → ℚ) :
    ∀ (l : List ℕ) (b : ℕ),
      f (l.foldl (fun best i => if f i < f best then i else best) b) ≤ f b ∧
      ∀ i ∈ l, f (l.foldl (fun best i => if f i < f best then i else best) b) ≤ f i := by
  intro l
  induction l with
  | nil => intro b; exact ⟨le_refl _, by simp⟩
  | cons x xs ih =>
    intro b
    simp only [List.foldl_cons]
    obtain ⟨h1, h2⟩ := ih (if f x < f b then x else b)
    have hb : f (if f x < f b then x else b) ≤ f b := by
      split
      · exact le_of_lt (by assumption)
      · exact le_refl _
    have hx : f (if f x < f b then x else b) ≤ f x := by
      split
      · exact le_refl _
      · exact le_of_not_lt (by assumption)
    refine ⟨le_trans h1 hb, ?_⟩
    intro i hi
    rcases List.mem_cons.mp hi with h | h
    · subst h
      exact le_trans h1 hx
    · exact h2 i h

/-- The argmin fold returns the accumulator or a list element. -/
lemma argminFold_mem (f : ℕ → ℚ) :
    ∀ (l : List ℕ) (b : ℕ),
      l.foldl (fun best i => if f i < f best then i else best) b = b ∨
        l.foldl (fun best i => if f i < f best then i else best) b ∈ l := by
  intro l
  induction l with
  | nil => intro b; exact Or.inl rfl
  | cons x xs ih =>
    intro b
    simp only [List.foldl_cons]
    rcases ih (if f x < f b then x else b) with h | h
    · rw [h]
      split
      · exact Or.inr (List.mem_cons_self _ _)
      · exact Or.inl rfl
    · exact Or.inr (List.mem_cons_of_mem _ h)

/-- np.argmin over a nonempty extent stays inside the extent. -/
lemma npArgmin_lt (f : ℕ → ℚ) (n : ℕ) (hn : 1 ≤ n) : npArgmin f n < n := by
  rw [npArgmin]
  rcases argminFold_mem f (List.range n) 0 with h | h
  · omega
  · exact List.mem_range.mp h

/-- np.argmin attains the minimum over the extent. -/
lemma npArgmin_le (f : ℕ → ℚ) (n : ℕ) : ∀ i, i < n → f (npArgmin f n) ≤ f i := by
  intro i hi
  exact (argminFold_le f (List.range n) 0).2 i (List.mem_range.mpr hi)

/-- Dissection of the normal-mode branch: the produced trial population,
the new fitness and population through the mask selection, the best index
as the argmin of the new fitness, and the untouched fields. -/
lemma batchBranch_spec (func : (ℕ → ℚ) → ℚ) (s : RandStream) (fuel : ℕ)
    (st : DEState) (pos : ℕ) (st1 : DEState) (npos : ℕ)
    (h : batchBranch func s fuel st pos = some (st1, npos)) :
    ∃ tp, produceTrials s fuel st.nPopulation st.bounds st.F st.CR
        st.population st.nPopulation 0 st.trialPopulation pos = some (tp, npos) ∧
      st1.population = selectPop st.nPopulation st.population tp (fit0Of func st)
        (evalAll st.m func st.nPopulation tp st.trialFitness) ∧
      st1.fitness = selectFit st.nPopulation (fit0Of func st)
        (evalAll st.m func st.nPopulation tp st.trialFitness) ∧
      st1.trialPopulation = tp ∧
      st1.trialFitness = evalAll st.m func st.nPopulation tp st.trialFitness ∧
      st1.minIndex = some (npArgmin st1.fitness st.nPopulation) ∧
      st1.nPopulation = st.nPopulation ∧ st1.bounds = st.bounds ∧
      st1.m = st.m ∧ st1.iterationNum = st.iterationNum := by
  rw [batchBranch] at h
  simp only [bind, Option.bind_eq_some, Option.pure_def, Option.some.injEq] at h
  obtain ⟨⟨tp, pnew⟩, htp, heq⟩ := h
  simp only [Prod.mk.injEq] at heq
  obtain ⟨hst, hpos⟩ := heq
  subst hpos
  refine ⟨tp, htp, ?_, ?_, ?_, ?_, ?_, ?_, ?_, ?_, ?_⟩ <;> rw [← hst]

/-- C6: per slot, the mask selection takes the trial individual and its
fitness exactly when the trial fitness is strictly below the incumbent
fitness, and leaves the slot unchanged otherwise; the argmin recomputed
afterwards lies in the extent and attains the minimum of the fitness
vector, and the normal-mode branch stores exactly this argmin of its new
fitness vector as the best index. -/
theorem greedy_selection (n : ℕ) (pop tp : ℕ → ℕ → ℚ) (fit tf : ℕ → ℚ) (j : ℕ)
    (hj : j < n) (hn : 1 ≤ n) :
    (tf j < fit j → selectPop n pop tp fit tf j = tp j ∧ selectFit n fit tf j = tf j) ∧
    (¬ tf j < fit j →
      selectPop n pop tp fit tf j = pop j ∧ selectFit n fit tf j = fit j) ∧
    npArgmin (selectFit n fit tf) n < n ∧
    (∀ i, i < n →
      selectFit n fit tf (npArgmin (selectFit n fit tf) n) ≤ selectFit n fit tf i) ∧
    ∀ (func : (ℕ → ℚ) → ℚ) (s : RandStream) (fuel : ℕ) (st st1 : DEState)
      (pos npos : ℕ), batchBranch func s fuel st pos = some (st1, npos) →
        st1.minIndex = some (npArgmin st1.fitness st1.nPopulation) := by
  refine ⟨fun h => ?_, fun h => ?_, npArgmin_lt _ n hn, npArgmin_le _ n, ?_⟩
  · constructor <;> simp [selectPop, selectFit, hj, h]
  · constructor <;> simp [selectPop, selectFit, hj, h]
  · intro func s fuel st st1 pos npos h
    obtain ⟨tp, _, _, _, _, _, hmi, hn, _, _, _⟩ :=
      batchBranch_spec func s fuel st pos st1 npos h
    rw [hmi, hn]

/-- C6 witness: a concrete selection at population size 4, slot 1, where
the trial fitness 0 beats the incumbent fitness 1. -/
theorem greedy_selection_witness :
    (1 < 4 ∧ 1 ≤ 4) ∧
    (((fun i : ℕ => if i = 1 then (0 : ℚ) else 2) 1 < (fun _ : ℕ => (1 : ℚ)) 1 →
      selectPop 4 (fun i _ => (i : ℚ)) (fun _ _ => 10) (fun _ => 1)
          (fun i => if i = 1 then 0 else 2) 1 = (fun _ _ => (10 : ℚ)) 1 ∧
      selectFit 4 (fun _ => 1) (fun i => if i = 1 then 0 else 2) 1 =
        (fun i : ℕ => if i = 1 then (0 : ℚ) else 2) 1) ∧
    (¬ (fun i : ℕ => if i = 1 then (0 : ℚ) else 2) 1 < (fun _ : ℕ => (1 : ℚ)) 1 →
      selectPop 4 (fun i _ => (i : ℚ)) (fun _ _ => 10) (fun _ => 1)
          (fun i => if i = 1 then 0 else 2) 1 = (fun i _ => (i : ℚ)) 1 ∧
      selectFit 4 (fun _ => 1) (fun i => if i = 1 then 0 else 2) 1 =
        (fun _ : ℕ => (1 : ℚ)) 1) ∧
    npArgmin (selectFit 4 (fun _ => 1) (fun i => if i = 1 then 0 else 2)) 4 < 4 ∧
    (∀ i, i < 4 →
      selectFit 4 (fun _ => 1) (fun i => if i = 1 then 0 else 2)
          (npArgmin (selectFit 4 (fun _ => 1) (fun i => if i = 1 then 0 else 2)) 4) ≤
        selectFit 4 (fun _ => 1) (fun i => if i = 1 then 0 else 2) i) ∧
    ∀ (func : (ℕ → ℚ) → ℚ) (s : RandStream) (fuel : ℕ) (st st1 : DEState)
      (pos npos : ℕ), batchBranch func s fuel st pos = some (st1, npos) →
        st1.minIndex = some (npArgmin st1.fitness st1.nPopulation)) :=
  ⟨⟨by decide, by decide⟩,
    greedy_selection 4 (fun i _ => (i : ℚ)) (fun _ _ => 10) (fun _ => 1)
      (fun i => if i = 1 then 0 else 2) 1 (by decide) (by decide)⟩

/-!
Claim C2 — the best value is not designalized.
-/

/-- C2 (code bug): in maximize mode the fitness vector stores the negated
objective and both MinimumValue and the pair returned by Optimize hand it
back without multiplying by the sign again.  At the concrete maximize run
below, the returned best individual has true objective value 7/16, yet the
returned value and the MinimumValue accessor give -(7/16): the claimed
designalization never happens in the code, contradicting the accessor's
own docstring ("The value of f (objective function) at the optimized
location"). -/
theorem minimum_value_not_designalized :
    (Optimize exCfgMax exFunc exStream 20 1).map (fun r => (r.2, exFunc r.1)) =
      some (-(7 / 16), 7 / 16) ∧
    ((DEvolution.init exCfgMax exStream).toOption.bind (fun st0 =>
      (batchRun exFunc exStream 20 1 st0 4).bind (fun r => MinimumValue r.1))) =
      some (-(7 / 16)) ∧
    (-(7 / 16) : ℚ) ≠ 7 / 16 :=
  ⟨by decide, by decide, by decide⟩

/-!
Claim C4 — bounds closure.
-/

/-- A list entry read through getD inside the extent is a list element. -/
lemma getD_mem_of_lt (l : List (ℚ × ℚ)) (k : ℕ) (d : ℚ × ℚ) (hk : k < l.length) :
    l.getD k d ∈ l := by
  rw [List.getD_eq_getElem l d hk]
  exact List.getElem_mem hk

/-- The hard clamp lands inside a well-ordered interval. -/
lemma clamp1_mem (b : ℚ × ℚ) (hb : b.1 ≤ b.2) (x : ℚ) :
    b.1 ≤ clamp1 b x ∧ clamp1 b x ≤ b.2 := by
  rw [clamp1]
  by_cases h1 : x < b.1
  · rw [if_pos h1]
    exact ⟨le_refl _, hb⟩
  · rw [if_neg h1]
    by_cases h2 : b.2 < x
    · rw [if_pos h2]
      exact ⟨hb, le_refl _⟩
    · rw [if_neg h2]
      exact ⟨le_of_not_lt h1, le_of_not_lt h2⟩

/-- Every repaired coordinate lies inside its dimension's interval. -/
lemma repair_mem (bounds : List (ℚ × ℚ)) (hb : validBounds bounds) (u : ℕ → ℚ)
    (k : ℕ) (hk : k < bounds.length) :
    lowerOf bounds k ≤ repair bounds u k ∧ repair bounds u k ≤ upperOf bounds k :=
  clamp1_mem (bounds.getD k (0, 0)) (hb _ (getD_mem_of_lt bounds k (0, 0) hk)) (u k)

/-- A produced trial row is a repaired vector. -/
lemma produceTrialRow_repair (s : RandStream) (fuel n : ℕ) (bounds : List (ℚ × ℚ))
    (F CR : ℚ) (pop : ℕ → ℕ → ℚ) (j pos : ℕ) (row : ℕ → ℚ) (npos : ℕ)
    (h : produceTrialRow s fuel n bounds F CR pop j pos = some (row, npos)) :
    ∃ u, row = repair bounds u := by
  rw [produceTrialRow] at h
  simp only [bind, Option.bind_eq_some, Option.pure_def, Option.some.injEq] at h
  obtain ⟨⟨r0, r1, r2, p⟩, _, heq⟩ := h
  simp only [Prod.mk.injEq] at heq
  exact ⟨_, heq.1.symm⟩

/-- A produced trial row lies inside the box. -/
lemma produceTrialRow_inBounds (s : RandStream) (fuel n : ℕ)
    (bounds : List (ℚ × ℚ)) (F CR : ℚ) (pop : ℕ → ℕ → ℚ) (j pos : ℕ)
    (row : ℕ → ℚ) (npos : ℕ) (hb : validBounds bounds)
    (h : produceTrialRow s fuel n bounds F CR pop j pos = some (row, npos)) :
    ∀ k, k < bounds.length →
      lowerOf bounds k ≤ row k ∧ row k ≤ upperOf bounds k := by
  obtain ⟨u, hu⟩ := produceTrialRow_repair s fuel n bounds F CR pop j pos row npos h
  intro k hk
  rw [hu]
  exact repair_mem bounds hb u k hk

/-- The slot loop never touches slots before its starting index. -/
lemma produceTrials_unchanged (s : RandStream) (fuel n : ℕ)
    (bounds : List (ℚ × ℚ)) (F CR : ℚ) (pop : ℕ → ℕ → ℚ) :
    ∀ (left j : ℕ) (tp : ℕ → ℕ → ℚ) (pos : ℕ) (tp2 : ℕ → ℕ → ℚ) (npos : ℕ),
      produceTrials s fuel n bounds F CR pop left j tp pos = some (tp2, npos) →
      ∀ a, a < j → tp2 a = tp a := by
  intro left
  induction left with
  | zero =>
    intro j tp pos tp2 npos h a ha
    rw [produceTrials] at h
    simp only [Option.some.injEq, Prod.mk.injEq] at h
    rw [← h.1]
  | succ l ih =>
    intro j tp pos tp2 npos h a ha
    rw [produceTrials] at h
    simp only [bind, Option.bind_eq_some] at h
    obtain ⟨⟨row, rpos⟩, _, hrec⟩ := h
    rw [ih (j + 1) _ _ _ _ hrec a (by omega)]
    simp [Nat.ne_of_lt ha]

/-- Every slot the loop covers ends up holding an in-bounds row. -/
lemma produceTrials_inBounds (s : RandStream) (fuel n : ℕ)
    (bounds : List (ℚ × ℚ)) (F CR : ℚ) (pop : ℕ → ℕ → ℚ)
    (hb : validBounds bounds) :
    ∀ (left j : ℕ) (tp : ℕ → ℕ → ℚ) (pos : ℕ) (tp2 : ℕ → ℕ → ℚ) (npos : ℕ),
      produceTrials s fuel n bounds F CR pop left j tp pos = some (tp2, npos) →
      ∀ a, j ≤ a → a < j + left → ∀ k, k < bounds.length →
        lowerOf bounds k ≤ tp2 a k ∧ tp2 a k ≤ upperOf bounds k := by
  intro left
  induction left with
  | zero =>
    intro j tp pos tp2 npos h a ha1 ha2
    omega
  | succ l ih =>
    intro j tp pos tp2 npos h a ha1 ha2
    rw [produceTrials] at h
    simp only [bind, Option.bind_eq_some] at h
    obtain ⟨⟨row, rpos⟩, hrow, hrec⟩ := h
    by_cases haj : a = j
    · subst haj
      intro k hk
      rw [produceTrials_unchanged s fuel n bounds F CR pop l (a + 1) _ _ _ _ hrec a
        (by omega)]
      simp only [if_pos rfl]
      exact produceTrialRow_inBounds s fuel n bounds F CR pop a pos row rpos hb hrow k hk
    · exact ih (j + 1) _ _ _ _ hrec a (by omega) (by omega)

/-- Each selected population row is the incumbent or the trial row. -/
lemma selectPop_cases (n : ℕ) (pop tp : ℕ → ℕ → ℚ) (fit tf : ℕ → ℚ) (i : ℕ) :
    selectPop n pop tp fit tf i = pop i ∨ selectPop n pop tp fit tf i = tp i := by
  rw [selectPop]
  by_cases h : i < n ∧ tf i < fit i
  · rw [if_pos h]
    exact Or.inr rfl
  · rw [if_neg h]
    exact Or.inl rfl

/-- The normal-mode branch keeps the population in the box and leaves the
trial population in the box; the static fields survive. -/
lemma batchBranch_closure (func : (ℕ → ℚ) → ℚ) (s : RandStream) (fuel : ℕ)
    (st : DEState) (pos : ℕ) (st1 : DEState) (npos : ℕ)
    (hb : validBounds st.bounds) (hpop : popInBounds st)
    (h : batchBranch func s fuel st pos = some (st1, npos)) :
    popInBounds st1 ∧ trialInBounds st1 ∧ st1.bounds = st.bounds ∧
    st1.nPopulation = st.nPopulation ∧ st1.m = st.m ∧
    st1.iterationNum = st.iterationNum := by
  obtain ⟨tp, htp, hpop1, hfit1, htpop1, htfit1, hmi1, hn1, hb1, hm1, hit1⟩ :=
    batchBranch_spec func s fuel st pos st1 npos h
  have htpB : ∀ a, a < st.nPopulation → ∀ k, k < st.bounds.length →
      lowerOf st.bounds k ≤ tp a k ∧ tp a k ≤ upperOf st.bounds k := by
    intro a ha k hk
    exact produceTrials_inBounds s fuel st.nPopulation st.bounds st.F st.CR
      st.population hb st.nPopulation 0 st.trialPopulation pos tp _ htp a
      (by omega) (by omega) k hk
  refine ⟨?_, ?_, hb1, hn1, hm1, hit1⟩
  · intro i k hi hk
    rw [hn1] at hi
    rw [hb1] at hk ⊢
    rw [hpop1]
    rcases selectPop_cases st.nPopulation st.population tp (fit0Of func st)
      (evalAll st.m func st.nPopulation tp st.trialFitness) i with hc | hc
    · rw [hc]
      exact hpop i k hi hk
    · rw [hc]
      exact htpB i hi k hk
  · intro i k hi hk
    rw [hn1] at hi
    rw [hb1] at hk ⊢
    rw [htpop1]
    exact htpB i hi k hk

/-- One full normal-mode pass: the closure facts of the branch, with the
iteration counter advanced by the pass. -/
lemma normalPass_closure (func : (ℕ → ℚ) → ℚ) (s : RandStream) (fuel : ℕ)
    (st : DEState) (pos : ℕ) (st1 : DEState) (npos : ℕ)
    (hb : validBounds st.bounds) (hpop : popInBounds st)
    (h : normalPass func s fuel st pos = some (st1, npos)) :
    popInBounds st1 ∧ trialInBounds st1 ∧ st1.bounds = st.bounds ∧
    st1.nPopulation = st.nPopulation ∧ st1.m = st.m ∧
    st1.iterationNum = st.iterationNum + 1 := by
  rw [normalPass] at h
  refine batchBranch_closure func s fuel
    { st with iterationNum := st.iterationNum + 1, extFitness := none } pos st1 npos
    ?_ ?_ h
  · exact hb
  · exact hpop

/-- The static fields of the state survive a batch run and the iteration
counter counts the passes. -/
lemma batchRun_fields (func : (ℕ → ℚ) → ℚ) (s : RandStream) (fuel : ℕ) :
    ∀ (g : ℕ) (st0 : DEState) (pos0 : ℕ) (st : DEState) (pos : ℕ),
      batchRun func s fuel g st0 pos0 = some (st, pos) →
      st.nPopulation = st0.nPopulation ∧ st.m = st0.m ∧ st.bounds = st0.bounds ∧
      st.iterationNum = st0.iterationNum + g := by
  intro g
  induction g with
  | zero =>
    intro st0 pos0 st pos h
    rw [batchRun] at h
    simp only [Option.some.injEq, Prod.mk.injEq] at h
    rw [← h.1]
    exact ⟨rfl, rfl, rfl, rfl⟩
  | succ gg ih =>
    intro st0 pos0 st pos h
    rw [batchRun] at h
    simp only [bind, Option.bind_eq_some] at h
    obtain ⟨⟨st1, p1⟩, hstep, hrec⟩ := h
    rw [normalPass] at hstep
    obtain ⟨tp, _, _, _, _, _, _, hn1, hb1, hm1, hit1⟩ :=
      batchBranch_spec func s fuel _ pos0 st1 p1 hstep
    obtain ⟨n2, m2, b2, i2⟩ := ih st1 p1 st pos hrec
    have hn1b : st1.nPopulation = st0.nPopulation := hn1
    have hb1b : st1.bounds = st0.bounds := hb1
    have hm1b : st1.m = st0.m := hm1
    have hit1b : st1.iterationNum = st0.iterationNum + 1 := hit1
    refine ⟨by rw [n2, hn1b], by rw [m2, hm1b], by rw [b2, hb1b], ?_⟩
    rw [i2, hit1b]
    omega

/-- After any number of batch passes from an in-bounds population, the
population is in the box, and so is the trial population once at least one
pass ran. -/
lemma batchRun_closure (func : (ℕ → ℚ) → ℚ) (s : RandStream) (fuel : ℕ) :
    ∀ (g : ℕ) (st0 : DEState) (pos0 : ℕ) (st : DEState) (pos : ℕ),
      validBounds st0.bounds → popInBounds st0 →
      batchRun func s fuel g st0 pos0 = some (st, pos) →
      popInBounds st ∧ (1 ≤ g → trialInBounds st) := by
  intro g
  induction g with
  | zero =>
    intro st0 pos0 st pos hb hpop h
    rw [batchRun] at h
    simp only [Option.some.injEq, Prod.mk.injEq] at h
    rw [← h.1]
    exact ⟨hpop, by omega⟩
  | succ gg ih =>
    intro st0 pos0 st pos hb hpop h
    rw [batchRun] at h
    simp only [bind, Option.bind_eq_some] at h
    obtain ⟨⟨st1, p1⟩, hstep, hrec⟩ := h
    obtain ⟨p1B, t1B, b1, n1, _, _⟩ :=
      normalPass_closure func s fuel st0 pos0 st1 p1 hb hpop hstep
    have hb1 : validBounds st1.bounds := b1 ▸ hb
    obtain ⟨pB, tB⟩ := ih st1 p1 st pos hb1 p1B hrec
    refine ⟨pB, fun _ => ?_⟩
    rcases Nat.eq_zero_or_pos gg with hgg | hgg
    · subst hgg
      rw [batchRun] at hrec
      simp only [Option.some.injEq, Prod.mk.injEq] at hrec
      rw [← hrec.1]
      exact t1B
    · exact tB hgg

/-- On construction the population is sampled inside the box. -/
lemma init_popInBounds (cfg : DEConfig) (s : RandStream) (st0 : DEState)
    (hb : validBounds cfg.bounds) (hs : unitStream s)
    (hinit : DEvolution.init cfg s = Except.ok st0) :
    popInBounds st0 ∧ st0.bounds = cfg.bounds ∧ st0.iterationNum = 0 := by
  rw [DEvolution.init] at hinit
  split at hinit
  · exact absurd hinit (by simp)
  · cases hinit
    refine ⟨?_, rfl, rfl⟩
    intro i k hi hk
    have hk2 : k < cfg.bounds.length := by simpa using hk
    have hmem := getD_mem_of_lt cfg.bounds k (0, 0) hk2
    have hlu : lowerOf cfg.bounds k ≤ upperOf cfg.bounds k := hb _ hmem
    obtain ⟨h0, h1⟩ := hs (i * cfg.bounds.length + k)
    constructor
    · have hnn : 0 ≤ s (i * cfg.bounds.length + k) *
          (upperOf cfg.bounds k - lowerOf cfg.bounds k) :=
        mul_nonneg h0 (by linarith)
      show lowerOf cfg.bounds k ≤ lowerOf cfg.bounds k + _
      linarith
    · have hle : s (i * cfg.bounds.length + k) *
          (upperOf cfg.bounds k - lowerOf cfg.bounds k) ≤
          upperOf cfg.bounds k - lowerOf cfg.bounds k :=
        mul_le_of_le_one_left (by linarith) (le_of_lt h1)
      show lowerOf cfg.bounds k + _ ≤ upperOf cfg.bounds k
      linarith

/-- C4 counterexample: bounds-closure is not unconditional.  Interactive
run over the box [1, 2] with no generation budget: the caller abandons the
initial sweep at its first yield, the optimizer then starts a trial sweep
over the stale all-zeros scratch trial population, and the caller supplies
the fitness -5 for each of the four zero rows.  The selection phase of the
next pass moves those out-of-box zero rows into the population
(devolution.py lines 96-99): population[0][0] ends at 0, below the lower
bound 1, although the initial population was sampled inside the box. -/
theorem bounds_closure_interactive_counterexample :
    ((DEvolution.init cfgBox12 exStream).toOption.map (fun st =>
      decide (lowerOf st.bounds 0 ≤ st.population 0 0 ∧
        st.population 0 0 ≤ upperOf st.bounds 0)) = some true) ∧
    (((DEvolution.init cfgBox12 exStream).toOption.bind (fun st =>
      coRun exFunc exStream 20 6 st none
        [none, some (-5), some (-5), some (-5), some (-5)] 4)).map
      (fun r => (r.1.population 0 0,
        decide (lowerOf r.1.bounds 0 ≤ r.1.population 0 0))) = some (0, false)) :=
  ⟨by decide, by decide⟩

/-- C4 (amended): bounds-closure for batch runs.  For a well-ordered box
and unit-interval draws, after any number of generations of a batch run
from a constructed state, every coordinate of every individual in the
population lies within its dimension's [lower, upper] interval, and so
does every coordinate of every trial vector once at least one generation
(and thus one crossover-and-repair) has run: the initial population is
sampled inside the box and every trial vector is hard-clamped into it.
In interactive mode the invariant can fail (see the counterexample): the
stale zeros scratch trial rows can be selected into the population. -/
theorem bounds_closure (cfg : DEConfig) (s : RandStream) (func : (ℕ → ℚ) → ℚ)
    (fuel g : ℕ) (st0 st : DEState) (pos0 pos : ℕ)
    (hb : validBounds cfg.bounds) (hs : unitStream s)
    (hinit : DEvolution.init cfg s = Except.ok st0)
    (hrun : batchRun func s fuel g st0 pos0 = some (st, pos)) :
    popInBounds st ∧ (1 ≤ g → trialInBounds st) := by
  obtain ⟨hpop0, hb0, _⟩ := init_popInBounds cfg s st0 hb hs hinit
  exact batchRun_closure func s fuel g st0 pos0 st pos (hb0 ▸ hb) hpop0 hrun

/-- C4 witness: one generation of the concrete minimizing run over exCfg;
the final population and trial population lie inside the box [0, 1]. -/
theorem bounds_closure_witness :
    validBounds exCfg.bounds ∧ unitStream exStream ∧
    DEvolution.init exCfg exStream = Except.ok exSt0 ∧
    (batchRun exFunc exStream 20 1 exSt0 4).isSome = true ∧
    ∀ st pos, batchRun exFunc exStream 20 1 exSt0 4 = some (st, pos) →
      popInBounds st ∧ (1 ≤ 1 → trialInBounds st) := by
  refine ⟨?_, ?_, rfl, by decide, ?_⟩
  · intro b hbmem
    simp only [exCfg, List.mem_singleton] at hbmem
    rw [hbmem]
    norm_num
  · intro i
    simp only [exStream]
    constructor
    · positivity
    · rw [div_lt_one (by norm_num)]
      have h8 : (i % 8) < 8 := Nat.mod_lt i (by norm_num)
      exact_mod_cast h8
  · intro st pos hrun
    exact bounds_closure exCfg exStream exFunc 20 1 exSt0 st 4 pos
      (by intro b hbmem
          simp only [exCfg, List.mem_singleton] at hbmem
          rw [hbmem]
          norm_num)
      (by intro i
          simp only [exStream]
          constructor
          · positivity
          · rw [div_lt_one (by norm_num)]
            have h8 : (i % 8) < 8 := Nat.mod_lt i (by norm_num)
            exact_mod_cast h8)
      rfl hrun

/-!
Claim C5 — monotone improvement of the best value.
-/

/-- After mask selection no fitness entry ever increases. -/
lemma selectFit_le (n : ℕ) (fit tf : ℕ → ℚ) (i : ℕ) :
    selectFit n fit tf i ≤ fit i := by
  rw [selectFit]
  by_cases h : i < n ∧ tf i < fit i
  · rw [if_pos h]
    exact le_of_lt h.2
  · rw [if_neg h]

/-- Splitting the last pass off a batch run. -/
lemma batchRun_succ (func : (ℕ → ℚ) → ℚ) (s : RandStream) (fuel : ℕ) :
    ∀ (g : ℕ) (st0 : DEState) (pos0 : ℕ),
      batchRun func s fuel (g + 1) st0 pos0 =
        (batchRun func s fuel g st0 pos0).bind
          (fun r => normalPass func s fuel r.1 r.2) := by
  intro g
  induction g with
  | zero =>
    intro st0 pos0
    cases h : normalPass func s fuel st0 pos0 with
    | none => simp [batchRun, h]
    | some r => simp [batchRun, h]
  | succ gg ih =>
    intro st0 pos0
    rw [batchRun]
    conv_rhs => rw [batchRun]
    cases h : normalPass func s fuel st0 pos0 with
    | none => simp [h]
    | some r =>
      obtain ⟨st1, p1⟩ := r
      simp only [h, Option.some_bind]
      exact ih st1 p1

/-- The fields a normal-mode pass preserves or advances. -/
lemma normalPass_fields (func : (ℕ → ℚ) → ℚ) (s : RandStream) (fuel : ℕ)
    (st : DEState) (pos : ℕ) (st1 : DEState) (npos : ℕ)
    (h : normalPass func s fuel st pos = some (st1, npos)) :
    st1.nPopulation = st.nPopulation ∧ st1.m = st.m ∧ st1.bounds = st.bounds ∧
    st1.iterationNum = st.iterationNum + 1 := by
  rw [normalPass] at h
  obtain ⟨tp, _, _, _, _, _, _, hn, hb, hm, hit⟩ :=
    batchBranch_spec func s fuel _ pos st1 npos h
  exact ⟨hn, hm, hb, hit⟩

/-- After a normal-mode pass the best index is the argmin of the new
fitness vector. -/
lemma normalPass_minIndex (func : (ℕ → ℚ) → ℚ) (s : RandStream) (fuel : ℕ)
    (st : DEState) (pos : ℕ) (st1 : DEState) (npos : ℕ)
    (h : normalPass func s fuel st pos = some (st1, npos)) :
    st1.minIndex = some (npArgmin st1.fitness st1.nPopulation) := by
  rw [normalPass] at h
  obtain ⟨tp, _, _, _, _, _, hmi, hn, _, _, _⟩ :=
    batchBranch_spec func s fuel _ pos st1 npos h
  rw [hmi, hn]

/-- After at least one pass of a batch run the best index is the argmin of
the fitness vector. -/
lemma batchRun_minIndex (func : (ℕ → ℚ) → ℚ) (s : RandStream) (fuel g : ℕ)
    (st0 : DEState) (pos0 : ℕ) (st : DEState) (pos : ℕ)
    (h : batchRun func s fuel (g + 1) st0 pos0 = some (st, pos)) :
    st.minIndex = some (npArgmin st.fitness st.nPopulation) := by
  rw [batchRun_succ] at h
  simp only [Option.bind_eq_some] at h
  obtain ⟨⟨st1, p1⟩, _, hstep⟩ := h
  exact normalPass_minIndex func s fuel st1 p1 st pos hstep

/-- From the second lap on the normal-mode branch never increases any
fitness entry. -/
lemma batchBranch_fitness_le (func : (ℕ → ℚ) → ℚ) (s : RandStream) (fuel : ℕ)
    (st : DEState) (pos : ℕ) (st1 : DEState) (npos : ℕ)
    (hiter : st.iterationNum ≠ 1)
    (h : batchBranch func s fuel st pos = some (st1, npos)) :
    ∀ i, st1.fitness i ≤ st.fitness i := by
  obtain ⟨tp, _, _, hfit, _, _, _, _, _, _, _⟩ :=
    batchBranch_spec func s fuel st pos st1 npos h
  intro i
  rw [hfit, fit0Of, if_neg hiter]
  exact selectFit_le _ _ _ i

/-- A normal-mode pass whose state has already completed a lap never
increases any fitness entry. -/
lemma normalPass_fitness_le (func : (ℕ → ℚ) → ℚ) (s : RandStream) (fuel : ℕ)
    (st : DEState) (pos : ℕ) (st1 : DEState) (npos : ℕ)
    (hiter : st.iterationNum ≠ 0)
    (h : normalPass func s fuel st pos = some (st1, npos)) :
    ∀ i, st1.fitness i ≤ st.fitness i := by
  rw [normalPass] at h
  refine batchBranch_fitness_le func s fuel
    { st with iterationNum := st.iterationNum + 1, extFitness := none } pos st1 npos
    ?_ h
  show st.iterationNum + 1 ≠ 1
  omega

/-- The minimum of the mask-selected fitness vector is at most the old
minimum. -/
lemma argmin_selectFit_le (n : ℕ) (hn : 1 ≤ n) (fit tf : ℕ → ℚ) :
    selectFit n fit tf (npArgmin (selectFit n fit tf) n) ≤ fit (npArgmin fit n) :=
  le_trans (npArgmin_le (selectFit n fit tf) n _ (npArgmin_lt fit n hn))
    (selectFit_le n fit tf _)

/-- Dissection of the coroutine-mode branch from the second lap on: mask
selection and argmin run on the caller-supplied trial fitness, then the
next trial population is produced; the static fields survive. -/
lemma coroutineBranch_spec (s : RandStream) (fuel : ℕ) (st : DEState) (pos : ℕ)
    (st1 : DEState) (npos : ℕ) (hiter : 1 < st.iterationNum)
    (h : coroutineBranch s fuel st pos = some (st1, npos)) :
    st1.fitness = selectFit st.nPopulation st.fitness st.trialFitness ∧
    st1.population = selectPop st.nPopulation st.population st.trialPopulation
      st.fitness st.trialFitness ∧
    st1.minIndex = some (npArgmin (selectFit st.nPopulation st.fitness
      st.trialFitness) st.nPopulation) ∧
    st1.nPopulation = st.nPopulation ∧ st1.m = st.m ∧
    st1.iterationNum = st.iterationNum := by
  rw [coroutineBranch] at h
  simp only [hiter, if_true] at h
  simp only [bind, Option.bind_eq_some, Option.pure_def, Option.some.injEq] at h
  obtain ⟨⟨tp, pnew⟩, htp, heq⟩ := h
  simp only [Prod.mk.injEq] at heq
  obtain ⟨hst, hpos⟩ := heq
  refine ⟨?_, ?_, ?_, ?_, ?_, ?_⟩ <;> rw [← hst]

/-- C5: across successive completed generations of a run, the value
returned by MinimumValue — the minimum entry of the sign-adjusted fitness
vector, attained at the recomputed best index — never increases; hence the
designalized best value (that value multiplied back by the sign m) is
non-increasing when minimizing (m = 1) and non-decreasing when maximizing
(m = -1).  The first block states this for batch runs; the final block
states it for the selection phase of interactive (coroutine-mode)
generations, devolution.py lines 96-101. -/
theorem monotone_improvement (func : (ℕ → ℚ) → ℚ) (s : RandStream) (fuel g : ℕ)
    (st0 : DEState) (pos0 : ℕ) (q q2 : ℚ)
    (h0 : st0.iterationNum = 0) (hn : 1 ≤ st0.nPopulation) (hg : 1 ≤ g)
    (hq : (batchRun func s fuel g st0 pos0).bind (fun r => MinimumValue r.1) = some q)
    (hq2 : (batchRun func s fuel (g + 1) st0 pos0).bind
      (fun r => MinimumValue r.1) = some q2) :
    (q2 ≤ q ∧ (st0.m = 1 → st0.m * q2 ≤ st0.m * q) ∧
      (st0.m = -1 → st0.m * q ≤ st0.m * q2)) ∧
    ∀ (s2 : RandStream) (fuel2 : ℕ) (stc stc1 : DEState) (pos2 npos2 : ℕ),
      1 < stc.iterationNum →
      stc.minIndex = some (npArgmin stc.fitness stc.nPopulation) →
      1 ≤ stc.nPopulation →
      coroutineBranch s2 fuel2 stc pos2 = some (stc1, npos2) →
      MinimumValue stc = some (stc.fitness (npArgmin stc.fitness stc.nPopulation)) ∧
      MinimumValue stc1 =
        some (stc1.fitness (npArgmin stc1.fitness stc1.nPopulation)) ∧
      stc1.fitness (npArgmin stc1.fitness stc1.nPopulation) ≤
        stc.fitness (npArgmin stc.fitness stc.nPopulation) ∧
      (stc.m = 1 → stc.m * stc1.fitness (npArgmin stc1.fitness stc1.nPopulation) ≤
        stc.m * stc.fitness (npArgmin stc.fitness stc.nPopulation)) ∧
      (stc.m = -1 → stc.m * stc.fitness (npArgmin stc.fitness stc.nPopulation) ≤
        stc.m * stc1.fitness (npArgmin stc1.fitness stc1.nPopulation)) := by
  simp only [Option.bind_eq_some] at hq hq2
  obtain ⟨⟨st, pos⟩, hrun, hmv⟩ := hq
  obtain ⟨⟨st2, pos2⟩, hrun2, hmv2⟩ := hq2
  rw [batchRun_succ, hrun] at hrun2
  simp only [Option.some_bind] at hrun2
  obtain ⟨hnp, hmm, _, hitn⟩ := batchRun_fields func s fuel g st0 pos0 st pos hrun
  obtain ⟨hn2, hm2, _, _⟩ := normalPass_fields func s fuel st pos st2 pos2 hrun2
  obtain ⟨g0, hg0⟩ : ∃ g0, g = g0 + 1 := ⟨g - 1, by omega⟩
  subst hg0
  have hmi : st.minIndex = some (npArgmin st.fitness st.nPopulation) :=
    batchRun_minIndex func s fuel g0 st0 pos0 st pos hrun
  have hmi2 : st2.minIndex = some (npArgmin st2.fitness st2.nPopulation) :=
    normalPass_minIndex func s fuel st pos st2 pos2 hrun2
  have hq_eq : q = st.fitness (npArgmin st.fitness st.nPopulation) := by
    rw [MinimumValue, hmi] at hmv
    simpa using hmv.symm
  have hq2_eq : q2 = st2.fitness (npArgmin st2.fitness st2.nPopulation) := by
    rw [MinimumValue, hmi2] at hmv2
    simpa using hmv2.symm
  have hstep_le : ∀ i, st2.fitness i ≤ st.fitness i :=
    normalPass_fitness_le func s fuel st pos st2 pos2
      (by rw [hitn, h0]; omega) hrun2
  have hlt : npArgmin st.fitness st.nPopulation < st2.nPopulation := by
    rw [hn2]
    exact npArgmin_lt st.fitness st.nPopulation (by omega)
  have hmain : q2 ≤ q := by
    rw [hq_eq, hq2_eq]
    calc st2.fitness (npArgmin st2.fitness st2.nPopulation)
        ≤ st2.fitness (npArgmin st.fitness st.nPopulation) :=
          npArgmin_le st2.fitness st2.nPopulation _ hlt
      _ ≤ st.fitness (npArgmin st.fitness st.nPopulation) := hstep_le _
  refine ⟨⟨hmain, fun hm1 => ?_, fun hm1 => ?_⟩, ?_⟩
  · rw [hm1]
    simpa using hmain
  · rw [hm1]
    simp only [neg_mul, one_mul, neg_le_neg_iff]
    exact hmain
  · intro s2 fuel2 stc stc1 pos2 npos2 hit2 hmiC hnC hbr
    obtain ⟨hfitC, _, hmiC1, hnC1, _, _⟩ :=
      coroutineBranch_spec s2 fuel2 stc pos2 stc1 npos2 hit2 hbr
    have hmiC1b : stc1.minIndex = some (npArgmin stc1.fitness stc1.nPopulation) := by
      rw [hmiC1, hfitC, hnC1]
    have hvC : MinimumValue stc =
        some (stc.fitness (npArgmin stc.fitness stc.nPopulation)) := by
      rw [MinimumValue, hmiC]
      rfl
    have hvC1 : MinimumValue stc1 =
        some (stc1.fitness (npArgmin stc1.fitness stc1.nPopulation)) := by
      rw [MinimumValue, hmiC1b]
      rfl
    have hle : stc1.fitness (npArgmin stc1.fitness stc1.nPopulation) ≤
        stc.fitness (npArgmin stc.fitness stc.nPopulation) := by
      rw [hfitC, hnC1]
      exact argmin_selectFit_le stc.nPopulation hnC stc.fitness stc.trialFitness
    refine ⟨hvC, hvC1, hle, fun hm1 => ?_, fun hm1 => ?_⟩
    · rw [hm1]
      simpa using hle
    · rw [hm1]
      simp only [neg_mul, one_mul, neg_le_neg_iff]
      exact hle

/-- C5 witness: the concrete minimizing run over exCfg between the first
and second completed generations; both best values are 0. -/
theorem monotone_improvement_witness :
    exSt0.iterationNum = 0 ∧ 1 ≤ exSt0.nPopulation ∧ 1 ≤ 1 ∧
    (batchRun exFunc exStream 20 1 exSt0 4).bind (fun r => MinimumValue r.1) =
      some 0 ∧
    (batchRun exFunc exStream 20 (1 + 1) exSt0 4).bind (fun r => MinimumValue r.1) =
      some 0 ∧
    (((0 : ℚ) ≤ 0 ∧ (exSt0.m = 1 → exSt0.m * 0 ≤ exSt0.m * 0) ∧
      (exSt0.m = -1 → exSt0.m * 0 ≤ exSt0.m * 0)) ∧
    ∀ (s2 : RandStream) (fuel2 : ℕ) (stc stc1 : DEState) (pos2 npos2 : ℕ),
      1 < stc.iterationNum →
      stc.minIndex = some (npArgmin stc.fitness stc.nPopulation) →
      1 ≤ stc.nPopulation →
      coroutineBranch s2 fuel2 stc pos2 = some (stc1, npos2) →
      MinimumValue stc = some (stc.fitness (npArgmin stc.fitness stc.nPopulation)) ∧
      MinimumValue stc1 =
        some (stc1.fitness (npArgmin stc1.fitness stc1.nPopulation)) ∧
      stc1.fitness (npArgmin stc1.fitness stc1.nPopulation) ≤
        stc.fitness (npArgmin stc.fitness stc.nPopulation) ∧
      (stc.m = 1 → stc.m * stc1.fitness (npArgmin stc1.fitness stc1.nPopulation) ≤
        stc.m * stc.fitness (npArgmin stc.fitness stc.nPopulation)) ∧
      (stc.m = -1 → stc.m * stc.fitness (npArgmin stc.fitness stc.nPopulation) ≤
        stc.m * stc1.fitness (npArgmin stc1.fitness stc1.nPopulation))) :=
  ⟨rfl, by decide, by decide, by decide, by decide,
    monotone_improvement exFunc exStream 20 1 exSt0 4 0 0 rfl (by decide) (by decide)
      (by decide) (by decide)⟩

end PythonDE
